import Mathlib

set_option autoImplicit false

/-! Shallow embedding of the tile-source abstraction layer of the
Vector-Tiles-Reader QGIS plugin (file src/plugin/util/tile_source.py),
together with explicit models of the external collaborators that the
specification declares out of scope (TileCoordinateSelector, BatchFetcher,
MetadataProvider, sqlite, and the Python standard library string helpers).
Machine integers do not overflow here (Python integers are unbounded), so
tile coordinates and zoom levels are plain naturals. -/

/-- Opaque raw tile payload: a byte sequence. -/
abbrev Bytes := List Nat

/-- A requested tile coordinate, as the (column, row) pairs passed to
`load_tiles` in `tiles_to_load`. -/
abbrev Coord := Nat × Nat

/-- The Qt signals an `AbstractSource` can emit while `load_tiles` runs
(lines 26-29): progress count, progress denominator, status message and the
tile-limit event.  `maxProgressList` records the directory backend passing
the whole tile list (not an integer) to the int-typed signal at line 531. -/
inductive Event where
  | maxProgress (n : Nat)
  | maxProgressList (tiles : List Coord)
  | progress (n : Nat)
  | message (s : String)
  | tileLimitReached
deriving DecidableEq, Repr

/-- A tile identity as constructed by `VectorTile(scheme, zoom_level, x, y)`
(external constructor from tile_helper, a plain record). -/
structure VectorTile where
  scheme : String
  zoom_level : Nat
  column : Nat
  row : Nat
deriving DecidableEq, Repr

/-- Decimal digit list of a natural number, fuel-driven model of the Python
builtin `str` on a non-negative integer (most significant digit first). -/
def natReprAux : Nat → Nat → List Char
  | 0, _ => []
  | f + 1, n => if n < 10 then [Nat.digitChar n] else natReprAux f (n / 10) ++ [Nat.digitChar (n % 10)]

/-- Model of the Python builtin `str` on a non-negative integer. -/
def natRepr (n : Nat) : String := ⟨natReprAux (n + 1) n⟩

/-- The text tag the archive backend builds for one requested coordinate in
`_get_where_clause` (line 348): the Python format string joining column and
row with a semicolon, matched by sqlite against
`tile_column || ";" || tile_row`. -/
def coordTag (t : Coord) : String := natRepr t.1 ++ ";" ++ natRepr t.2

/-- Drops `pat` from the front of `l` when it is literally there (helper for
the Python string substitution model). -/
def dropFront (pat l : List Char) : Option (List Char) :=
  if l.take pat.length = pat then some (l.drop pat.length) else none

/-- Fuel-driven left-to-right non-overlapping substitution on character
lists, the model of Python `str.replace` and of `str.format` placeholder
substitution used for URL templates and tile path templates. -/
def replaceAux : Nat → List Char → List Char → List Char → List Char
  | 0, _, _, l => l
  | f + 1, pat, rep, l =>
    match l with
    | [] => []
    | c :: rest =>
      match dropFront pat l with
      | some rest2 => rep ++ replaceAux f pat rep rest2
      | none => c :: replaceAux f pat rep rest

/-- Model of the Python builtin `str.replace` (also used for `str.format`
with a single named placeholder). -/
def strReplace (s pat rep : String) : String :=
  if pat.data = [] then s else ⟨replaceAux s.data.length pat.data rep.data s.data⟩

/-- Fuel-driven split of a character list on a non-empty separator, the
model of Python `str.split` and of `urllib` tokenisation. -/
def splitOnAux : Nat → List Char → List Char → List (List Char)
  | 0, _, l => [l]
  | f + 1, sep, l =>
    match l with
    | [] => [[]]
    | c :: rest =>
      match dropFront sep l with
      | some rest2 => [] :: splitOnAux f sep rest2
      | none =>
        match splitOnAux f sep rest with
        | [] => [[c]]
        | h :: t => (c :: h) :: t

/-- Model of the Python builtin `str.split` with an explicit separator. -/
def pySplit (s sep : String) : List String :=
  if sep.data = [] then [s] else (splitOnAux s.data.length sep.data s.data).map (fun l => ⟨l⟩)

/-- Python truthiness of an optional string: `None` and the empty string are
falsy. -/
def pyFalsyStr : Option String → Bool
  | none => true
  | some s => s == ""

/-- The mutable state an `AbstractSource` instance carries for cooperative
cancellation: the `_cancelling` flag set in `__init__` (line 33). -/
structure SourceState where
  cancelling : Bool
deriving DecidableEq, Repr

/-- Model of `AbstractSource.cancel` (lines 35-36): sets the flag. -/
def AbstractSource.cancel (s : SourceState) : SourceState := { s with cancelling := true }

/-- Model of the `self._cancelling = False` reset every `load_tiles`
implementation performs at entry (lines 154, 277, 518). -/
def AbstractSource.entryReset (s : SourceState) : SourceState := { s with cancelling := false }

/-- The flag state after the entry reset of a `load_tiles` call and `k`
interleaving windows, where `arrivals i = true` means the caller invoked
`cancel()` in window `i` of that in-flight call. -/
def stateAt (s0 : SourceState) (arrivals : Nat → Bool) : Nat → SourceState
  | 0 => AbstractSource.entryReset s0
  | k + 1 =>
    if arrivals k then AbstractSource.cancel (stateAt s0 arrivals k) else stateAt s0 arrivals k

/-- The cancellation-flag schedule in which `cancel()` arrives right before
the check with index `k` of an in-flight `load_tiles` (used to state the
partial-result claims): checks `k` and later read a set flag. -/
def cancelFrom (k : Nat) : Nat → Bool := fun i => decide (k ≤ i)

/-- The cancellation-flag schedule of a run in which `cancel()` is never
invoked. -/
def neverCancel : Nat → Bool := fun _ => false

/-- Squared distance of a candidate tile to the geometric center of the
candidate set, scaled by the squared set size to stay integral. -/
def centerKey (available : List Coord) (t : Coord) : Int :=
  let n : Int := available.length
  let sx : Int := (available.map (fun p => (p.1 : Int))).sum
  let sy : Int := (available.map (fun p => (p.2 : Int))).sum
  (n * t.1 - sx) ^ 2 + (n * t.2 - sy) ^ 2

/-- Stable insertion into a list sorted by an integer key. -/
def insertByKey (key : Coord → Int) (x : Coord) : List Coord → List Coord
  | [] => [x]
  | y :: ys => if key x ≤ key y then x :: y :: ys else y :: insertByKey key x ys

/-- Stable insertion sort by an integer key. -/
def sortByKey (key : Coord → Int) : List Coord → List Coord
  | [] => []
  | x :: xs => insertByKey key x (sortByKey key xs)

/-- Modelled from the spec: the TileCoordinateSelector
(`get_tiles_from_center` in tile_helper.py, a file of this repository that
is not under src/).  Given the full candidate tile set and a cap it returns
the `nr_of_tiles` tiles nearest the geometric center of the candidate set,
in deterministic order.  The `should_cancel_func` argument is accepted as in
the source call sites; the spec does not define the partial result of a
selection that is cancelled midway, so the model ignores it. -/
def get_tiles_from_center (nr_of_tiles : Nat) (available : List Coord)
    (_should_cancel : Bool) : List Coord :=
  (sortByKey (centerKey available) available).take nr_of_tiles

/-- Modelled from the spec: the MetadataProvider (class TileJSON in
tile_json.py, a file of this repository that is not under src/).  It loads a
TileJSON-like metadata document and resolves fields from it; the fields the
claims need are the explicit name, the identifier, the tile URL template
array and the scheme.  A field the document lacks is `none`. -/
structure TileJSON where
  name : Option String
  id : Option String
  tiles : List String
  scheme : String
deriving DecidableEq, Repr

/-- The remote backend: a `ServerSource` instance holds its connection URL
and the loaded TileJSON descriptor (lines 96-112). -/
structure ServerSource where
  url : String
  json : TileJSON
deriving DecidableEq, Repr

/-- Joins string parts with a separator (model of Python `str.join`). -/
def strJoin (sep : String) : List String → String
  | [] => ""
  | [x] => x
  | x :: xs => x ++ sep ++ strJoin sep xs

/-- The part of a string before its first occurrence of `sep`. -/
def cutAt (s sep : String) : String := (pySplit s sep).headD s

/-- Model of `urllib.parse.urlsplit(url)[1]`: the network location of the
URL, the part between the scheme separator and the following slash, query
or fragment (empty when the URL has no scheme separator). -/
def urlsplitNetloc (url : String) : String :=
  match pySplit url "://" with
  | _ :: rest :: _ => cutAt (cutAt (cutAt rest "/") "?") "#"
  | _ => ""

/-- Model of `urllib.parse.urlparse(url).query`: everything after the first
question mark, with any fragment removed. -/
def urlQuery (url : String) : String :=
  match pySplit (cutAt url "#") "?" with
  | _ :: rest :: more => strJoin "?" (rest :: more)
  | _ => ""

/-- Model of one key lookup in `urllib.parse.parse_qs` over a query string:
the first non-blank value bound to the key (parse_qs drops blank values). -/
def parse_qs_get (query key : String) : Option String :=
  ((pySplit query "&").filterMap (fun kv =>
    match pySplit kv "=" with
    | k :: v :: vs =>
      if k == key && !(strJoin "=" (v :: vs) == "") then some (strJoin "=" (v :: vs)) else none
    | _ => none)).head?

/-- The api key extraction of `ServerSource.load_tiles` (lines 164-167):
the `api_key` query parameter of the connection URL, or the empty string. -/
def ServerSource.api_key_of (url : String) : String :=
  (parse_qs_get (urlQuery url) "api_key").getD ""

/-- The fixed subdomain set for Nextzen-style URL templates (line 168). -/
def nextzen_servers : List String := ["a", "b", "c", "d"]

/-- One request URL built by the loop of `ServerSource.load_tiles`
(lines 169-181): placeholder substitution plus the optional appended api
key. -/
def ServerSource.buildUrl (base_url : String) (zoom_level : Nat) (api_key : String)
    (i : Nat) (t : Coord) : String :=
  let u := strReplace (strReplace (strReplace (strReplace (strReplace base_url
    "{z}" (natRepr zoom_level)) "{x}" (natRepr t.1)) "{y}" (natRepr t.2))
    "{api_key}" api_key) "{s}" (nextzen_servers.getD (i % nextzen_servers.length) "")
  if api_key == "" then u else u ++ "?api_key=" ++ api_key

/-- Modelled from the spec: the BatchFetcher (`load_tiles_async` in
network_helper.py, a file of this repository that is not under src/).  It
retrieves a batch of URLs, invokes one progress callback per completed item
and polls the cancellation predicate between item completions; once the
predicate holds, no further item is dispatched.  The batch is modelled as a
sequential loop over the URL list with one predicate poll before each item;
`web` is the remote content environment, and a URL without content is a
missing resource, omitted from the results. -/
def load_tiles_async (web : String → Option Bytes) (flag : Nat → Bool) :
    Nat → List (String × Coord) → List (Coord × Bytes) × List Event
  | _, [] => ([], [])
  | i, u :: rest =>
    if flag i then ([], [])
    else
      let r := load_tiles_async web flag (i + 1) rest
      match web u.1 with
      | some d => ((u.2, d) :: r.1, Event.progress (i + 1) :: r.2)
      | none => (r.1, Event.progress (i + 1) :: r.2)

/-- What a successful `load_tiles` call leaves behind: the returned list of
(tile, data) pairs and the signals emitted during the call, in order. -/
structure LoadOut where
  result : List (VectorTile × Bytes)
  events : List Event
deriving DecidableEq, Repr

/-- Model of `ServerSource.name` (lines 126-132): the TileJSON name, else
the TileJSON id, else the network location of the connection URL. -/
def ServerSource.name (src : ServerSource) : String :=
  let n1 := src.json.name
  let n2 := if pyFalsyStr n1 then src.json.id else n1
  if pyFalsyStr n2 then urlsplitNetloc src.url else n2.getD ""

/-- The candidate list the remote backend actually fetches (lines 159-162):
the selector output when the truthy cap is exceeded, the request unchanged
otherwise.  One URL is built per entry of this list, so its length is the
total item count the max-progress signal reports. -/
def ServerSource.request_tiles (max_tiles : Option Nat) (tiles_to_load : List Coord)
    (cancelled : Bool) : List Coord :=
  match max_tiles with
  | some m =>
    if m ≠ 0 ∧ m < tiles_to_load.length then get_tiles_from_center m tiles_to_load cancelled
    else tiles_to_load
  | none => tiles_to_load

/-- Model of `ServerSource.load_tiles` (lines 153-195).  The cancellation
flag reads of the in-flight call are the schedule `flag`; an empty TileJSON
tiles array makes `self.json.tiles()[0]` raise, modelled as an error
result. -/
def ServerSource.load_tiles (src : ServerSource) (web : String → Option Bytes)
    (zoom_level : Nat) (tiles_to_load : List Coord) (max_tiles : Option Nat)
    (flag : Nat → Bool) : Except String LoadOut :=
  match src.json.tiles with
  | [] => Except.error "IndexError: list index out of range"
  | base_url :: _ =>
    let tiles1 := match max_tiles with
      | some m =>
        if m ≠ 0 ∧ m < tiles_to_load.length then get_tiles_from_center m tiles_to_load (flag 0)
        else tiles_to_load
      | none => tiles_to_load
    let evs0 : List Event := match max_tiles with
      | some m => if m ≠ 0 ∧ m < tiles_to_load.length then [Event.tileLimitReached] else []
      | none => []
    let api_key := ServerSource.api_key_of src.url
    let urls := tiles1.enum.map
      (fun p => (ServerSource.buildUrl base_url zoom_level api_key p.1 p.2, p.2))
    let fr := load_tiles_async web flag 0 urls
    Except.ok {
      result := fr.1.map (fun cd => (⟨src.json.scheme, zoom_level, cd.1.1, cd.1.2⟩, cd.2)),
      events := evs0 ++ [Event.maxProgress urls.length,
        Event.message ("Getting " ++ natRepr urls.length ++ " tiles from source...")] ++ fr.2 }

/-- One row of the `tiles` table of an MBTiles archive (read-only file
format contract, spec section 6). -/
structure TileRow where
  zoom_level : Nat
  tile_column : Nat
  tile_row : Nat
  tile_data : Bytes
deriving DecidableEq, Repr

/-- The sqlite database inside an MBTiles file: the `tiles` table and the
`metadata` key/value table, each modelled as the list of its rows. -/
structure MBTilesDB where
  tiles : List TileRow
  metadata : List (String × String)
deriving DecidableEq, Repr

/-- The archive backend: an `MBTilesSource` instance holds its file path
and the database behind it (lines 202-214; the lazily opened connection is
modelled as the database value itself). -/
structure MBTilesSource where
  path : String
  db : MBTilesDB
deriving DecidableEq, Repr

/-- A value held in the per-instance cache `_metadata_cache`: Python None,
a string from the metadata table (or a supplied default), or the integer
stored by `_get_zoom`. -/
inductive PyVal where
  | none
  | str (s : String)
  | int (n : Int)
deriving DecidableEq, Repr

/-- Python truthiness of a cached value. -/
def PyVal.truthy : PyVal → Bool
  | .none => false
  | .str s => !(s == "")
  | .int n => !(n == 0)

/-- The string content of a cached value (`scheme()` always yields a
string under the model, so the other arms are never reached there). -/
def PyVal.toStr : PyVal → String
  | .none => ""
  | .str s => s
  | .int n => natRepr n.toNat

/-- One database query issued by the archive backend; the log records
queries only as precisely as the claims need. -/
inductive Query where
  | metadataValue (field : String)
  | zoomFromTiles (max_zoom : Bool)
  | countAtZoom (zoom : Nat)
  | selectTiles (zoom : Nat) (tags : List String)
  | minMaxAtZoom (zoom : Nat)
deriving DecidableEq, Repr

/-- The mutable instance state of `MBTilesSource` the claims observe: the
metadata cache plus the log of database queries issued so far. -/
structure MBState where
  cache : List (String × PyVal)
  log : List Query
deriving DecidableEq, Repr

/-- Python dict assignment `self._metadata_cache[k] = v`: overwrite the
binding when the key is present, append it otherwise. -/
def dictInsert : List (String × PyVal) → String → PyVal → List (String × PyVal)
  | [], k, v => [(k, v)]
  | kv :: rest, k, v => if kv.1 == k then (k, v) :: rest else kv :: dictInsert rest k v

/-- Model of the metadata query `select value from metadata where name =
field` as executed through `_get_single_value` (lines 404-430): the value
of the first matching row, or Python None when there is none. -/
def metadataLookup (db : MBTilesDB) (field : String) : Option String :=
  ((db.metadata.filter (fun kv => kv.1 == field)).map (fun kv => kv.2)).head?

/-- Model of `MBTilesSource._get_metadata_value` (lines 404-412): a cache
hit answers directly; a miss queries the metadata table once, replaces a
falsy result by a truthy default, stores the resolved value and returns
it. -/
def MBTilesSource._get_metadata_value (src : MBTilesSource) (field_name : String)
    (default : Option String) (s : MBState) : PyVal × MBState :=
  match s.cache.lookup field_name with
  | some v => (v, s)
  | none =>
    let value : PyVal := match metadataLookup src.db field_name with
      | some v => PyVal.str v
      | none => PyVal.none
    let value := if (match default with | some d => !(d == "") | none => false) && !value.truthy
      then PyVal.str (default.getD "") else value
    (value, { cache := dictInsert s.cache field_name value,
              log := s.log ++ [Query.metadataValue field_name] })

/-- Model of `MBTilesSource._get_zoom_from_tiles_table` (lines 388-402):
the zoom level of the first row ordered descending (maximum) or ascending
(minimum), or None when the table is empty. -/
def MBTilesSource._get_zoom_from_tiles_table (src : MBTilesSource) (max_zoom : Bool)
    (s : MBState) : Option Nat × MBState :=
  let zs := src.db.tiles.map (fun r => r.zoom_level)
  ((if max_zoom then zs.max? else zs.min?),
   { s with log := s.log ++ [Query.zoomFromTiles max_zoom] })

/-- Model of the Python builtin `int` on a string metadata value (a
non-numeric value would raise, which no claim exercises). -/
def pyIntOfStr (s : String) : Int := (s.toInt?).getD 0

/-- Model of `MBTilesSource._get_zoom` (lines 373-386): cache hit answers
directly; otherwise the metadata field is resolved (itself cached), the
tiles table is scanned when the metadata lacks it, the result is converted
to an integer and stored under the field name. -/
def MBTilesSource._get_zoom (src : MBTilesSource) (max_zoom : Bool) (s : MBState) :
    PyVal × MBState :=
  let field_name := if max_zoom then "maxzoom" else "minzoom"
  match s.cache.lookup field_name with
  | some v => (v, s)
  | none =>
    let r1 := MBTilesSource._get_metadata_value src field_name none s
    let r2 : PyVal × MBState := match r1.1 with
      | PyVal.none =>
        let rt := MBTilesSource._get_zoom_from_tiles_table src max_zoom r1.2
        (match rt.1 with | some z => PyVal.int z | none => PyVal.none, rt.2)
      | v => (v, r1.2)
    let zoom : PyVal := match r2.1 with
      | PyVal.none => PyVal.none
      | PyVal.str v => PyVal.int (pyIntOfStr v)
      | PyVal.int n => PyVal.int n
    (zoom, { r2.2 with cache := dictInsert r2.2.cache field_name zoom })

/-- Model of `MBTilesSource.scheme` (lines 257-258). -/
def MBTilesSource.scheme (src : MBTilesSource) (s : MBState) : PyVal × MBState :=
  MBTilesSource._get_metadata_value src "scheme" (some "tms") s

/-- Model of `os.path.basename`: the part after the last slash. -/
def basenamePy (p : String) : String := (pySplit p "/").getLastD ""

/-- Model of the root part of `os.path.splitext`: drops the suffix starting
at the last dot, except for dots leading the name. -/
def splitextRoot (s : String) : String :=
  let cs := s.data
  let lead := (cs.takeWhile (fun c => c == '.')).length
  let rest := cs.drop lead
  if rest.contains '.' then
    let ext := (rest.reverse.takeWhile (fun c => !(c == '.'))).length
    ⟨cs.take lead ++ rest.take (rest.length - ext - 1)⟩
  else s

/-- Model of `MBTilesSource.name` (lines 253-255): only the base name of
the archive path; the metadata table is not consulted. -/
def MBTilesSource.name (src : MBTilesSource) : String := splitextRoot (basenamePy src.path)

/-- Model of `DirectorySource.name` (lines 488-494): the TileJSON name,
else the TileJSON id, else the base name of the directory path. -/
def DirectorySource.name0 (json : TileJSON) (path : String) : String :=
  let n1 := json.name
  let n2 := if pyFalsyStr n1 then json.id else n1
  if pyFalsyStr n2 then basenamePy path else n2.getD ""

/-- Model of `MBTilesSource._create_tile` (lines 352-358): the VectorTile
built from one selected row, with the instance scheme. -/
def MBTilesSource._create_tile (src : MBTilesSource) (r : TileRow) (s : MBState) :
    (VectorTile × Bytes) × MBState :=
  let rs := MBTilesSource.scheme src s
  ((⟨rs.1.toStr, r.zoom_level, r.tile_column, r.tile_row⟩, r.tile_data), rs.2)

/-- The WHERE clause built by `_get_where_clause` (lines 338-350), as
sqlite evaluates it: a row is selected iff its zoom level equals the
requested one and the text `tile_column || ";" || tile_row` appears among
the formatted coordinate tags (`coordTag_mem_map` reduces this membership
to plain membership of the coordinate pair). -/
def rowMatches (zoom_level : Nat) (tiles_to_load : List Coord) (r : TileRow) : Bool :=
  r.zoom_level == zoom_level &&
    (tiles_to_load.map coordTag).contains (coordTag (r.tile_column, r.tile_row))

/-- The candidate list the archive backend queries for: the selector output
whenever `max_tiles` is not None (lines 286-291), the request unchanged
otherwise. -/
def MBTilesSource.center_tiles (max_tiles : Option Nat) (tiles_to_load : List Coord)
    (cancelled : Bool) : List Coord :=
  match max_tiles with
  | some m => get_tiles_from_center m tiles_to_load cancelled
  | none => tiles_to_load

/-- The rows returned by the SELECT of `MBTilesSource.load_tiles`
(lines 292-298), in table order. -/
def MBTilesSource.selectRows (db : MBTilesDB) (zoom_level : Nat) (tiles : List Coord) :
    List TileRow :=
  db.tiles.filter (rowMatches zoom_level tiles)

/-- The COUNT query of lines 299-300: how many rows are stored at the zoom
level, ignoring the requested set entirely. -/
def MBTilesSource.count_at_zoom (db : MBTilesDB) (zoom_level : Nat) : Nat :=
  (db.tiles.filter (fun r => r.zoom_level == zoom_level)).length

/-- Python truthiness of `max_tiles` combined with the cap comparison in
the row loop guard (line 307): `max_tiles and len(tile_data_tuples) >=
max_tiles`. -/
def capReached (max_tiles : Option Nat) (len : Nat) : Bool :=
  match max_tiles with
  | some m => !(m == 0) && decide (m ≤ len)
  | none => false

/-- The row loop of `MBTilesSource.load_tiles` (lines 306-311): before each
row the cancellation flag and the cap are checked (a break keeps the tiles
accumulated so far); otherwise the tile is created, appended, and one
progress increment is emitted. -/
def mbFetchLoop (src : MBTilesSource) (flag : Nat → Bool) (max_tiles : Option Nat) :
    List TileRow → Nat → List (VectorTile × Bytes) → MBState →
    List (VectorTile × Bytes) × MBState × List Event
  | [], _, acc, s => (acc, s, [])
  | r :: rest, i, acc, s =>
    if flag i || capReached max_tiles acc.length then (acc, s, [])
    else
      let td := MBTilesSource._create_tile src r s
      let res := mbFetchLoop src flag max_tiles rest (i + 1) (acc ++ [td.1]) td.2
      (res.1, res.2.1, Event.progress (i + 1) :: res.2.2)

/-- Model of `MBTilesSource.load_tiles` (lines 269-312): selector whenever
`max_tiles` is set, SELECT over the capped candidates, COUNT over the whole
zoom level deciding the tile-limit event, then the guarded row loop. The
call returns (result, final instance state, emitted events in order). -/
def MBTilesSource.load_tiles (src : MBTilesSource) (zoom_level : Nat)
    (tiles_to_load : List Coord) (max_tiles : Option Nat) (flag : Nat → Bool)
    (s : MBState) : List (VectorTile × Bytes) × MBState × List Event :=
  let center := MBTilesSource.center_tiles max_tiles tiles_to_load (flag 0)
  let rows := MBTilesSource.selectRows src.db zoom_level center
  let s1 : MBState := { s with
    log := s.log ++ [Query.selectTiles zoom_level (center.map coordTag),
                     Query.countAtZoom zoom_level] }
  let total := MBTilesSource.count_at_zoom src.db zoom_level
  let limitEvs : List Event := match max_tiles with
    | some m => if m < total then [Event.tileLimitReached] else []
    | none => []
  if rows.isEmpty then ([], s1, limitEvs)
  else
    let res := mbFetchLoop src flag max_tiles rows 0 [] s1
    (res.1, res.2.1, limitEvs ++ Event.maxProgress rows.length :: res.2.2)

/-- The directory backend: a `DirectorySource` instance holds the directory
path and the loaded metadata.json descriptor (lines 462-472). -/
structure DirectorySource where
  path : String
  json : TileJSON
deriving DecidableEq, Repr

/-- The tile path template resolution of `DirectorySource.load_tiles`
(lines 525-529): the first entry of the `tiles` metadata array, or the
default template under the source directory. -/
def DirectorySource.tile_path (src : DirectorySource) : String :=
  match src.json.tiles with
  | t :: _ => t
  | [] => src.path ++ "/{z}/{x}/{y}.pbf"

/-- One resolved tile file path, `tile_path.format(z=.., x=.., y=..)`
(line 534). -/
def formatTilePath (template : String) (zoom_level : Nat) (t : Coord) : String :=
  strReplace (strReplace (strReplace template "{z}" (natRepr zoom_level))
    "{x}" (natRepr t.1)) "{y}" (natRepr t.2)

/-- The per-tile loop of `DirectorySource.load_tiles` (lines 532-543): the
bare index is emitted as progress before each item, the file is read when
present and the tile is skipped otherwise; the loop never consults the
cancellation flag. `fs` is the filesystem environment. -/
def dirFetchLoop (src : DirectorySource) (fs : String → Option Bytes) (zoom_level : Nat)
    (template : String) : List Coord → Nat → List (VectorTile × Bytes) × List Event
  | [], _ => ([], [])
  | t :: rest, i =>
    let r := dirFetchLoop src fs zoom_level template rest (i + 1)
    match fs (formatTilePath template zoom_level t) with
    | some d => ((⟨src.json.scheme, zoom_level, t.1, t.2⟩, d) :: r.1, Event.progress i :: r.2)
    | none => (r.1, Event.progress i :: r.2)

/-- The Python 3 exception raised by the comparison `len(tiles_to_load) >
max_tiles` at line 521 when `max_tiles` is left at its default None. -/
def dirTypeErrorMsg : String := "TypeError: unsupported comparison between int and NoneType"

/-- Model of `DirectorySource.load_tiles` (lines 517-544): the unguarded
cap comparison raises on a None cap before anything else happens; otherwise
the candidate set is reduced when it exceeds the cap, the (possibly
reduced) tile list itself is passed to the int-typed max-progress signal,
and the flag-blind file loop runs. -/
def DirectorySource.load_tiles (src : DirectorySource) (fs : String → Option Bytes)
    (zoom_level : Nat) (tiles_to_load : List Coord) (max_tiles : Option Nat)
    (flag : Nat → Bool) : Except String LoadOut :=
  match max_tiles with
  | none => Except.error dirTypeErrorMsg
  | some m =>
    let tiles1 := if m < tiles_to_load.length then get_tiles_from_center m tiles_to_load (flag 0)
      else tiles_to_load
    let evs0 : List Event := if m < tiles_to_load.length then [Event.tileLimitReached] else []
    let r := dirFetchLoop src fs zoom_level (DirectorySource.tile_path src) tiles1 0
    Except.ok { result := r.1, events := evs0 ++ Event.maxProgressList tiles1 :: r.2 }

/-- Model of `MBTilesSource.bounds` (lines 233-238): the metadata `bounds`
string stripped of spaces and brackets and split at commas; the numeric
tokens stay symbolic because no claim evaluates coordinates.  A falsy
metadata value yields no bounds. -/
def MBTilesSource.bounds (src : MBTilesSource) (s : MBState) :
    Option (List String) × MBState :=
  let r := MBTilesSource._get_metadata_value src "bounds" none s
  (match r.1 with
   | PyVal.str b =>
     if b == "" then none
     else some (pySplit (strReplace (strReplace (strReplace b " " "") "[" "") "]" "") ",")
   | _ => none, r.2)

/-- Tile-grid bounds at a zoom level, as the external tile math produces
them. -/
structure Bounds where
  zoom : Nat
  x_min : Nat
  x_max : Nat
  y_min : Nat
  y_max : Nat
  scheme : String
deriving DecidableEq, Repr

/-- Modelled from the spec: `Bounds.create` of tile_helper.py (a file of
this repository that is not under src/), as invoked with the MIN/MAX
aggregates of `_get_bounds_from_data`; an empty zoom level gives sqlite
NULL aggregates and no bounds object, otherwise the grid bounds exactly as
scanned. -/
def Bounds.create (zoom : Nat) (x_min x_max y_min y_max : Option Nat) (scheme : String) :
    Option Bounds :=
  match x_min, x_max, y_min, y_max with
  | some a, some b, some c, some d => some ⟨zoom, a, b, c, d, scheme⟩
  | _, _, _, _ => none

/-- Model of `MBTilesSource._get_bounds_from_data` (lines 314-336): the SQL
MIN/MAX aggregates over the columns and rows stored at the requested zoom
(the aggregate SELECT always returns one row, with NULL fields when the
zoom level holds no tiles). -/
def MBTilesSource._get_bounds_from_data (src : MBTilesSource) (zoom_level : Nat)
    (s : MBState) : Option Bounds × MBState :=
  let zrows := src.db.tiles.filter (fun r => r.zoom_level == zoom_level)
  let s1 : MBState := { s with log := s.log ++ [Query.minMaxAtZoom zoom_level] }
  let rs := MBTilesSource.scheme src s1
  (Bounds.create zoom_level ((zrows.map (fun r => r.tile_column)).min?)
    ((zrows.map (fun r => r.tile_column)).max?)
    ((zrows.map (fun r => r.tile_row)).min?)
    ((zrows.map (fun r => r.tile_row)).max?) rs.1.toStr, rs.2)

/-- Modelled from the spec: the whole-world extent constant `WORLD_BOUNDS`
of tile_helper.py (not under src/), the last-resort extent of
`bounds_tile`. -/
def WORLD_BOUNDS : List String := ["-180.0", "-85.05112878", "180.0", "85.05112878"]

/-- Model of `MBTilesSource.bounds_tile` (lines 240-251), parameterised by
the external conversion `get_tile_bounds` of tile_helper.py (arguments:
zoom, extent tokens, scheme, source crs): declared bounds when they convert,
else bounds scanned from the data, else the whole world converted. -/
def MBTilesSource.bounds_tile (src : MBTilesSource)
    (get_tile_bounds : Nat → List String → String → String → Option Bounds)
    (zoom : Nat) (s : MBState) : Option Bounds × MBState :=
  let rb := MBTilesSource.bounds src s
  let rs := MBTilesSource.scheme src rb.2
  let scheme := rs.1.toStr
  let t1 : Option Bounds := match rb.1 with
    | some extent => get_tile_bounds zoom extent scheme "4326"
    | none => none
  match t1 with
  | some b => (some b, rs.2)
  | none =>
    let t2 := MBTilesSource._get_bounds_from_data src zoom rs.2
    match t2.1 with
    | some b => (some b, t2.2)
    | none => (get_tile_bounds zoom WORLD_BOUNDS scheme "4326", t2.2)

/-- The first list is an initial segment of the second: a cancelled run
returns exactly the tiles the corresponding full run had already
retrieved. -/
def isFrontOf {α : Type} (l1 l2 : List α) : Prop := ∃ t, l1 ++ t = l2

/-- The number of tile-limit events in an emitted event list. -/
def countLimit (evs : List Event) : Nat :=
  (evs.filter (fun e => e == Event.tileLimitReached)).length

/-- Event classifiers used to state what each backend emits. -/
def isMessageEv : Event → Bool
  | .message _ => true
  | _ => false

def isMaxProgressEv : Event → Bool
  | .maxProgress _ => true
  | _ => false

def isMaxProgressListEv : Event → Bool
  | .maxProgressList _ => true
  | _ => false

theorem natReprAux_ne_nil (f n : Nat) (hf : 0 < f) : natReprAux f n ≠ [] := by
  cases f with
  | zero => exact absurd hf (by simp)
  | succ f =>
    simp only [natReprAux]
    by_cases h : n < 10
    · simp [h]
    · simp [h]

theorem natReprAux_fuel (n : Nat) : ∀ f g : Nat, n < f → n < g →
    natReprAux f n = natReprAux g n := by
  induction n using Nat.strong_induction_on with
  | _ n ih =>
    intro f g hf hg
    cases f with
    | zero => exact absurd hf (by omega)
    | succ f =>
      cases g with
      | zero => exact absurd hg (by omega)
      | succ g =>
        simp only [natReprAux]
        by_cases h : n < 10
        · simp [h]
        · have hdiv : n / 10 < n := Nat.div_lt_self (by omega) (by omega)
          simp only [h, if_false]
          rw [ih (n / 10) hdiv f g (by omega) (by omega)]

theorem digitChar_ne_semi (m : Nat) (hm : m < 10) : Nat.digitChar m ≠ ';' := by
  interval_cases m <;> decide

theorem natReprAux_no_semi (f : Nat) : ∀ n : Nat, ';' ∉ natReprAux f n := by
  induction f with
  | zero => intro n; simp [natReprAux]
  | succ f ih =>
    intro n
    simp only [natReprAux]
    by_cases h : n < 10
    · simp only [h, if_true, List.mem_singleton]
      exact fun hc => digitChar_ne_semi n h hc.symm
    · simp only [h, if_false, List.mem_append, List.mem_singleton]
      rintro (hc | hc)
      · exact ih (n / 10) hc
      · exact digitChar_ne_semi (n % 10) (Nat.mod_lt _ (by omega)) hc.symm

theorem digitChar_inj (a b : Nat) (ha : a < 10) (hb : b < 10)
    (h : Nat.digitChar a = Nat.digitChar b) : a = b := by
  interval_cases a <;> interval_cases b <;> simp_all <;> cases h

theorem natReprAux_inj (n : Nat) : ∀ m f g : Nat, n < f → m < g →
    natReprAux f n = natReprAux g m → n = m := by
  induction n using Nat.strong_induction_on with
  | _ n ih =>
    intro m f g hf hg heq
    cases f with
    | zero => exact absurd hf (by omega)
    | succ f =>
      cases g with
      | zero => exact absurd hg (by omega)
      | succ g =>
        simp only [natReprAux] at heq
        by_cases h1 : n < 10 <;> by_cases h2 : m < 10
        · simp only [h1, h2, if_true, List.cons.injEq] at heq
          exact digitChar_inj n m h1 h2 heq.1
        · exfalso
          simp only [h1, h2, if_true, if_false] at heq
          have hlen := congrArg List.length heq
          have hne : natReprAux g (m / 10) ≠ [] := natReprAux_ne_nil g (m / 10) (by omega)
          simp only [List.length_append, List.length_singleton] at hlen
          have : (natReprAux g (m / 10)).length > 0 := List.length_pos.mpr hne
          omega
        · exfalso
          simp only [h1, h2, if_true, if_false] at heq
          have hlen := congrArg List.length heq
          have hne : natReprAux f (n / 10) ≠ [] := natReprAux_ne_nil f (n / 10) (by omega)
          simp only [List.length_append, List.length_singleton] at hlen
          have : (natReprAux f (n / 10)).length > 0 := List.length_pos.mpr hne
          omega
        · simp only [h1, h2, if_false] at heq
          have hrev := congrArg List.reverse heq
          simp only [List.reverse_append, List.reverse_singleton, List.singleton_append,
            List.cons.injEq] at hrev
          have hd := digitChar_inj (n % 10) (m % 10) (Nat.mod_lt _ (by omega))
            (Nat.mod_lt _ (by omega)) hrev.1
          have htail : natReprAux f (n / 10) = natReprAux g (m / 10) := by
            have := congrArg List.reverse hrev.2
            simpa using this
          have hdivlt : n / 10 < n := Nat.div_lt_self (by omega) (by omega)
          have hq := ih (n / 10) hdivlt (m / 10) f g (by omega)
            (by
              have : m / 10 < m := Nat.div_lt_self (by omega) (by omega)
              omega) htail
          omega

theorem natRepr_inj : Function.Injective natRepr := by
  intro a b h
  have hdata : natReprAux (a + 1) a = natReprAux (b + 1) b := congrArg String.data h
  exact natReprAux_inj a b (a + 1) (b + 1) (by omega) (by omega) hdata

theorem natRepr_no_semi (n : Nat) : ';' ∉ (natRepr n).data := natReprAux_no_semi (n + 1) n

theorem semi_split (l1 : List Char) : ∀ (r1 l2 r2 : List Char), ';' ∉ l1 → ';' ∉ r1 →
    l1 ++ ';' :: l2 = r1 ++ ';' :: r2 → l1 = r1 ∧ l2 = r2 := by
  induction l1 with
  | nil =>
    intro r1 l2 r2 _ hr heq
    cases r1 with
    | nil => simpa using heq
    | cons d r1 =>
      exfalso
      simp only [List.nil_append, List.cons_append, List.cons.injEq] at heq
      exact hr (heq.1 ▸ List.mem_cons_self d r1)
  | cons c l1 ih =>
    intro r1 l2 r2 hl hr heq
    cases r1 with
    | nil =>
      exfalso
      simp only [List.cons_append, List.nil_append, List.cons.injEq] at heq
      exact hl (heq.1 ▸ List.mem_cons_self c l1)
    | cons d r1 =>
      simp only [List.cons_append, List.cons.injEq] at heq
      have := ih r1 l2 r2 (fun h => hl (List.mem_cons_of_mem c h))
        (fun h => hr (List.mem_cons_of_mem d h)) heq.2
      exact ⟨by rw [heq.1, this.1], this.2⟩

theorem coordTag_inj : Function.Injective coordTag := by
  intro a b h
  have hdata : (natRepr a.1).data ++ ';' :: (natRepr a.2).data
      = (natRepr b.1).data ++ ';' :: (natRepr b.2).data := by
    have h1 := congrArg String.data h
    simp only [coordTag, String.data_append] at h1
    simpa using h1
  have hs := semi_split (natRepr a.1).data (natRepr b.1).data (natRepr a.2).data
    (natRepr b.2).data (natRepr_no_semi a.1) (natRepr_no_semi b.1) hdata
  have h1 : a.1 = b.1 := natRepr_inj (String.ext hs.1)
  have h2 : a.2 = b.2 := natRepr_inj (String.ext hs.2)
  exact Prod.ext h1 h2

theorem coordTag_mem_map {p : Coord} {tiles : List Coord} :
    coordTag p ∈ tiles.map coordTag ↔ p ∈ tiles := by
  constructor
  · intro h
    obtain ⟨q, hq, he⟩ := List.mem_map.mp h
    exact (coordTag_inj he) ▸ hq
  · exact List.mem_map_of_mem coordTag

theorem insertByKey_length (key : Coord → Int) (x : Coord) (l : List Coord) :
    (insertByKey key x l).length = l.length + 1 := by
  induction l with
  | nil => rfl
  | cons y ys ih =>
    simp only [insertByKey]
    by_cases h : key x ≤ key y
    · simp [h]
    · simp [h, ih]

theorem sortByKey_length (key : Coord → Int) (l : List Coord) :
    (sortByKey key l).length = l.length := by
  induction l with
  | nil => rfl
  | cons x xs ih => simp [sortByKey, insertByKey_length, ih]

theorem insertByKey_mem (key : Coord → Int) (x : Coord) (l : List Coord) (z : Coord) :
    z ∈ insertByKey key x l ↔ z = x ∨ z ∈ l := by
  induction l with
  | nil => simp [insertByKey]
  | cons y ys ih =>
    simp only [insertByKey]
    by_cases h : key x ≤ key y
    · simp [h]
    · simp only [h, if_false, List.mem_cons, ih]
      tauto

theorem sortByKey_mem (key : Coord → Int) (l : List Coord) (z : Coord) :
    z ∈ sortByKey key l ↔ z ∈ l := by
  induction l with
  | nil => simp [sortByKey]
  | cons x xs ih => simp [sortByKey, insertByKey_mem, ih]

theorem get_tiles_from_center_length (n : Nat) (l : List Coord) (c : Bool) :
    (get_tiles_from_center n l c).length = min n l.length := by
  simp [get_tiles_from_center, List.length_take, sortByKey_length]

theorem get_tiles_from_center_subset {n : Nat} {l : List Coord} {c : Bool} {t : Coord}
    (h : t ∈ get_tiles_from_center n l c) : t ∈ l := by
  have := List.mem_of_mem_take h
  exact (sortByKey_mem (centerKey l) l t).mp this

theorem lookup_dictInsert_self (c : List (String × PyVal)) (k : String) (v : PyVal) :
    (dictInsert c k v).lookup k = some v := by
  induction c with
  | nil => simp [dictInsert, List.lookup]
  | cons kv rest ih =>
    simp only [dictInsert]
    by_cases h : kv.1 = k
    · simp [h, List.lookup]
    · have hb : (kv.1 == k) = false := beq_eq_false_iff_ne.mpr h
      have hb2 : (k == kv.1) = false := beq_eq_false_iff_ne.mpr (Ne.symm h)
      simp [hb, List.lookup, hb2, ih]

theorem isFrontOf_refl {α : Type} (l : List α) : isFrontOf l l := ⟨[], by simp⟩

theorem isFrontOf_nil {α : Type} (l : List α) : isFrontOf [] l := ⟨l, rfl⟩

theorem isFrontOf_cons {α : Type} (a : α) {l1 l2 : List α} (h : isFrontOf l1 l2) :
    isFrontOf (a :: l1) (a :: l2) := by
  obtain ⟨t, ht⟩ := h
  exact ⟨t, by simp [ht]⟩

theorem isFrontOf_trans {α : Type} {l1 l2 l3 : List α} (h1 : isFrontOf l1 l2)
    (h2 : isFrontOf l2 l3) : isFrontOf l1 l3 := by
  obtain ⟨t1, ht1⟩ := h1
  obtain ⟨t2, ht2⟩ := h2
  exact ⟨t1 ++ t2, by rw [← List.append_assoc, ht1, ht2]⟩

theorem isFrontOf_append {α : Type} (l t : List α) : isFrontOf l (l ++ t) := ⟨t, rfl⟩

theorem isFrontOf_map {α β : Type} (f : α → β) {l1 l2 : List α} (h : isFrontOf l1 l2) :
    isFrontOf (l1.map f) (l2.map f) := by
  obtain ⟨t, ht⟩ := h
  exact ⟨t.map f, by rw [← List.map_append, ht]⟩

theorem countLimit_append (l1 l2 : List Event) :
    countLimit (l1 ++ l2) = countLimit l1 + countLimit l2 := by
  simp [countLimit, List.filter_append]

theorem countLimit_progress {l : List Event} (h : ∀ e ∈ l, ∃ n, e = Event.progress n) :
    countLimit l = 0 := by
  induction l with
  | nil => rfl
  | cons e rest ih =>
    obtain ⟨n, hn⟩ := h e (List.mem_cons_self e rest)
    subst hn
    simp only [countLimit, List.filter]
    exact ih (fun x hx => h x (List.mem_cons_of_mem _ hx))

theorem load_tiles_async_length (web : String → Option Bytes) (flag : Nat → Bool) :
    ∀ (urls : List (String × Coord)) (i : Nat),
      (load_tiles_async web flag i urls).1.length ≤ urls.length := by
  intro urls
  induction urls with
  | nil => intro i; simp [load_tiles_async]
  | cons u rest ih =>
    intro i
    simp only [load_tiles_async]
    by_cases h : flag i
    · simp [h]
    · simp only [h, if_false, List.length_cons]
      cases hw : web u.1 with
      | some d =>
        simpa using Nat.succ_le_succ (ih (i + 1))
      | none =>
        exact le_trans (ih (i + 1)) (Nat.le_succ _)

theorem load_tiles_async_events (web : String → Option Bytes) (flag : Nat → Bool) :
    ∀ (urls : List (String × Coord)) (i : Nat),
      ∀ e ∈ (load_tiles_async web flag i urls).2, ∃ n, e = Event.progress n := by
  intro urls
  induction urls with
  | nil => intro i e he; simp [load_tiles_async] at he
  | cons u rest ih =>
    intro i e
    simp only [load_tiles_async]
    by_cases h : flag i
    · simp [h]
    · simp only [h, if_false, Bool.false_eq_true]
      cases hw : web u.1 with
      | some d =>
        intro he
        simp only [List.mem_cons] at he
        rcases he with he | he
        · exact ⟨i + 1, he⟩
        · exact ih (i + 1) e he
      | none =>
        intro he
        simp only [List.mem_cons] at he
        rcases he with he | he
        · exact ⟨i + 1, he⟩
        · exact ih (i + 1) e he

theorem load_tiles_async_cancelFrom (web : String → Option Bytes) (k : Nat) :
    ∀ (urls : List (String × Coord)) (i : Nat),
      load_tiles_async web (cancelFrom k) i urls
        = load_tiles_async web neverCancel i (urls.take (k - i)) := by
  intro urls
  induction urls with
  | nil => intro i; simp [load_tiles_async]
  | cons u rest ih =>
    intro i
    by_cases h : k ≤ i
    · have hk : k - i = 0 := by omega
      have hf : cancelFrom k i = true := by simp [cancelFrom, h]
      simp [load_tiles_async, hf, hk]
    · have hk : k - i = (k - (i + 1)) + 1 := by omega
      have hf : cancelFrom k i = false := by simp [cancelFrom]; omega
      rw [hk, List.take_succ_cons]
      simp only [load_tiles_async, hf, neverCancel, if_false, Bool.false_eq_true]
      rw [ih (i + 1)]

theorem load_tiles_async_take_front (web : String → Option Bytes) :
    ∀ (urls : List (String × Coord)) (j i : Nat),
      isFrontOf (load_tiles_async web neverCancel i (urls.take j)).1
        (load_tiles_async web neverCancel i urls).1 := by
  intro urls
  induction urls with
  | nil => intro j i; simp [load_tiles_async, isFrontOf_refl]
  | cons u rest ih =>
    intro j i
    cases j with
    | zero =>
      simpa [load_tiles_async, List.take_zero] using isFrontOf_nil _
    | succ j =>
      rw [List.take_succ_cons]
      simp only [load_tiles_async, neverCancel, if_false, Bool.false_eq_true]
      cases hw : web u.1 with
      | some d => exact isFrontOf_cons _ (ih j (i + 1))
      | none => exact ih j (i + 1)

theorem mbFetchLoop_le_cap (src : MBTilesSource) (flag : Nat → Bool) (m : Nat)
    (hm : 0 < m) : ∀ (rows : List TileRow) (i : Nat) (acc : List (VectorTile × Bytes))
      (s : MBState), acc.length ≤ m →
      (mbFetchLoop src flag (some m) rows i acc s).1.length ≤ m := by
  intro rows
  induction rows with
  | nil => intro i acc s h; simpa [mbFetchLoop] using h
  | cons r rest ih =>
    intro i acc s h
    simp only [mbFetchLoop]
    by_cases hg : (flag i || capReached (some m) acc.length) = true
    · simpa [hg] using h
    · have hg2 : (flag i || capReached (some m) acc.length) = false := by
        simpa using hg
      simp only [hg2, Bool.false_eq_true, if_false]
      apply ih
      have hcap : capReached (some m) acc.length = false := by
        rcases Bool.or_eq_false_iff.mp hg2 with ⟨_, hc⟩
        exact hc
      have : ¬ (m ≤ acc.length) := by
        intro hle
        rw [show capReached (some m) acc.length
            = (!(m == 0) && decide (m ≤ acc.length)) from rfl] at hcap
        simp [hle] at hcap
        omega
      simp only [List.length_append, List.length_singleton]
      omega

theorem mbFetchLoop_events (src : MBTilesSource) (flag : Nat → Bool)
    (maxt : Option Nat) : ∀ (rows : List TileRow) (i : Nat)
      (acc : List (VectorTile × Bytes)) (s : MBState),
      ∀ e ∈ (mbFetchLoop src flag maxt rows i acc s).2.2, ∃ n, e = Event.progress n := by
  intro rows
  induction rows with
  | nil => intro i acc s e he; simp [mbFetchLoop] at he
  | cons r rest ih =>
    intro i acc s e
    simp only [mbFetchLoop]
    by_cases hg : (flag i || capReached maxt acc.length) = true
    · simp [hg]
    · have hg2 : (flag i || capReached maxt acc.length) = false := by simpa using hg
      simp only [hg2, Bool.false_eq_true, if_false]
      intro he
      simp only [List.mem_cons] at he
      rcases he with he | he
      · exact ⟨i + 1, he⟩
      · exact ih (i + 1) _ _ e he

theorem mbFetchLoop_acc_front (src : MBTilesSource) (flag : Nat → Bool)
    (maxt : Option Nat) : ∀ (rows : List TileRow) (i : Nat)
      (acc : List (VectorTile × Bytes)) (s : MBState),
      isFrontOf acc (mbFetchLoop src flag maxt rows i acc s).1 := by
  intro rows
  induction rows with
  | nil => intro i acc s; exact isFrontOf_refl _
  | cons r rest ih =>
    intro i acc s
    simp only [mbFetchLoop]
    by_cases hg : (flag i || capReached maxt acc.length) = true
    · simp only [hg, if_true]
      exact isFrontOf_refl _
    · have hg2 : (flag i || capReached maxt acc.length) = false := by simpa using hg
      simp only [hg2, Bool.false_eq_true, if_false]
      exact isFrontOf_trans (isFrontOf_append acc _) (ih (i + 1) _ _)

theorem mbFetchLoop_cancelFrom (src : MBTilesSource) (maxt : Option Nat) (k : Nat) :
    ∀ (rows : List TileRow) (i : Nat) (acc : List (VectorTile × Bytes)) (s : MBState),
      mbFetchLoop src (cancelFrom k) maxt rows i acc s
        = mbFetchLoop src neverCancel maxt (rows.take (k - i)) i acc s := by
  intro rows
  induction rows with
  | nil => intro i acc s; simp [mbFetchLoop]
  | cons r rest ih =>
    intro i acc s
    by_cases h : k ≤ i
    · have hk : k - i = 0 := by omega
      have hf : cancelFrom k i = true := by simp [cancelFrom, h]
      simp [mbFetchLoop, hf, hk]
    · have hk : k - i = (k - (i + 1)) + 1 := by omega
      have hf : cancelFrom k i = false := by simp [cancelFrom]; omega
      rw [hk, List.take_succ_cons]
      simp only [mbFetchLoop, hf, neverCancel, Bool.false_or]
      by_cases hc : capReached maxt acc.length = true
      · simp [hc]
      · have hc2 : capReached maxt acc.length = false := by simpa using hc
        simp only [hc2, Bool.false_eq_true, if_false]
        rw [ih (i + 1)]

theorem mbFetchLoop_take_front (src : MBTilesSource) (maxt : Option Nat) :
    ∀ (rows : List TileRow) (j i : Nat) (acc : List (VectorTile × Bytes)) (s : MBState),
      isFrontOf (mbFetchLoop src neverCancel maxt (rows.take j) i acc s).1
        (mbFetchLoop src neverCancel maxt rows i acc s).1 := by
  intro rows
  induction rows with
  | nil => intro j i acc s; simp [mbFetchLoop, isFrontOf_refl]
  | cons r rest ih =>
    intro j i acc s
    cases j with
    | zero =>
      rw [List.take_zero]
      exact mbFetchLoop_acc_front src neverCancel maxt (r :: rest) i acc s
    | succ j =>
      rw [List.take_succ_cons]
      simp only [mbFetchLoop, neverCancel, Bool.false_or]
      by_cases hc : capReached maxt acc.length = true
      · simp only [hc, if_true]
        exact isFrontOf_refl _
      · have hc2 : capReached maxt acc.length = false := by simpa using hc
        simp only [hc2, Bool.false_eq_true, if_false]
        exact ih j (i + 1) _ _

theorem mbFetchLoop_length (src : MBTilesSource) (flag : Nat → Bool) (maxt : Option Nat) :
    ∀ (rows : List TileRow) (i : Nat) (acc : List (VectorTile × Bytes)) (s : MBState),
      (mbFetchLoop src flag maxt rows i acc s).1.length ≤ acc.length + rows.length := by
  intro rows
  induction rows with
  | nil => intro i acc s; simp [mbFetchLoop]
  | cons r rest ih =>
    intro i acc s
    simp only [mbFetchLoop]
    by_cases hg : (flag i || capReached maxt acc.length) = true
    · simp only [hg, if_true, List.length_cons]
      omega
    · have hg2 : (flag i || capReached maxt acc.length) = false := by simpa using hg
      simp only [hg2, Bool.false_eq_true, if_false]
      have h3 := ih (i + 1) (acc ++ [(MBTilesSource._create_tile src r s).1])
        (MBTilesSource._create_tile src r s).2
      rw [List.length_append, List.length_singleton] at h3
      exact le_trans h3 (by simp only [List.length_cons]; omega)

theorem dirFetchLoop_length (src : DirectorySource) (fs : String → Option Bytes)
    (zoom_level : Nat) (template : String) : ∀ (tiles : List Coord) (i : Nat),
      (dirFetchLoop src fs zoom_level template tiles i).1.length ≤ tiles.length := by
  intro tiles
  induction tiles with
  | nil => intro i; simp [dirFetchLoop]
  | cons t rest ih =>
    intro i
    simp only [dirFetchLoop]
    cases hw : fs (formatTilePath template zoom_level t) with
    | some d => simpa using Nat.succ_le_succ (ih (i + 1))
    | none => exact le_trans (ih (i + 1)) (Nat.le_succ _)

theorem dirFetchLoop_events (src : DirectorySource) (fs : String → Option Bytes)
    (zoom_level : Nat) (template : String) : ∀ (tiles : List Coord) (i : Nat),
      ∀ e ∈ (dirFetchLoop src fs zoom_level template tiles i).2, ∃ n, e = Event.progress n := by
  intro tiles
  induction tiles with
  | nil => intro i e he; simp [dirFetchLoop] at he
  | cons t rest ih =>
    intro i e
    simp only [dirFetchLoop]
    cases hw : fs (formatTilePath template zoom_level t) with
    | some d =>
      intro he
      simp only [List.mem_cons] at he
      rcases he with he | he
      · exact ⟨i, he⟩
      · exact ih (i + 1) e he
    | none =>
      intro he
      simp only [List.mem_cons] at he
      rcases he with he | he
      · exact ⟨i, he⟩
      · exact ih (i + 1) e he

theorem stateAt_cancelling (s0 : SourceState) (arrivals : Nat → Bool) :
    ∀ k : Nat, (stateAt s0 arrivals k).cancelling = true ↔ ∃ i, i < k ∧ arrivals i = true := by
  intro k
  induction k with
  | zero =>
    simp [stateAt, AbstractSource.entryReset]
  | succ k ih =>
    simp only [stateAt]
    by_cases ha : arrivals k = true
    · simp only [ha, if_true, AbstractSource.cancel]
      constructor
      · intro _
        exact ⟨k, Nat.lt_succ_self k, ha⟩
      · intro _
        trivial
    · have ha2 : arrivals k = false := by simpa using ha
      simp only [ha2, Bool.false_eq_true, if_false, ih]
      constructor
      · rintro ⟨i, hi, hia⟩
        exact ⟨i, Nat.lt_succ_of_lt hi, hia⟩
      · rintro ⟨i, hi, hia⟩
        refine ⟨i, ?_, hia⟩
        rcases Nat.lt_succ_iff_lt_or_eq.mp hi with h | h
        · exact h
        · subst h
          exact absurd hia (by simp [ha2])

/-- C8: `cancel()` always raises the cancellation flag; every `load_tiles`
clears the flag at entry (after zero windows the state is the entry reset
with the flag down), and during an in-flight call the flag is up exactly
when `cancel()` arrived in one of the windows since that entry — so it is
monotone and never reverts to false within the call. -/
theorem C8_cancellation_flag (s0 : SourceState) (arrivals : Nat → Bool) (k : Nat) :
    (stateAt s0 arrivals 0 = AbstractSource.entryReset s0
        ∧ (stateAt s0 arrivals 0).cancelling = false)
      ∧ ((stateAt s0 arrivals k).cancelling = true ↔ ∃ i, i < k ∧ arrivals i = true)
      ∧ (∀ s : SourceState, (AbstractSource.cancel s).cancelling = true) :=
  ⟨⟨rfl, rfl⟩, stateAt_cancelling s0 arrivals k, fun _ => rfl⟩

/-- C10: on the directory backend every `load_tiles` call that leaves
`max_tiles` at its declared default None raises at the cap comparison of
line 521 — before any tile file is read, any signal is emitted or any
result is produced — for every `tiles_to_load`, including the empty set. -/
theorem C10_directory_none_raises (src : DirectorySource) (fs : String → Option Bytes)
    (zoom_level : Nat) (tiles_to_load : List Coord) (flag : Nat → Bool) :
    DirectorySource.load_tiles src fs zoom_level tiles_to_load none flag
      = Except.error dirTypeErrorMsg := rfl

/-- C1: the claim fails on the directory backend: evaluated at a concrete
input with the default `max_tiles=None`, `DirectorySource.load_tiles`
raises the comparison TypeError instead of returning a list (the remote
and archive backends do return lists under a None cap, as the other
theorems show). -/
theorem C1_directory_counterexample :
    DirectorySource.load_tiles ⟨"/tiles", ⟨none, none, [], "xyz"⟩⟩ (fun _ => some [1])
      3 [(1, 2)] none neverCancel = Except.error dirTypeErrorMsg := rfl

/-- C9: archive metadata caching — a cache hit issues no query and changes
nothing; a miss logs exactly one metadata query and stores the resolved
value; a later access of the same key, even against a changed underlying
store `db2`, returns the stored value with no further query and no state
change.  The same holds for the zoom bounds resolved through `_get_zoom`. -/
theorem C9_metadata_cache (src : MBTilesSource) (db2 : MBTilesDB) (field_name : String)
    (default : Option String) (max_zoom : Bool) (s : MBState) :
    (MBTilesSource._get_metadata_value { src with db := db2 } field_name default
        (MBTilesSource._get_metadata_value src field_name default s).2
      = ((MBTilesSource._get_metadata_value src field_name default s).1,
         (MBTilesSource._get_metadata_value src field_name default s).2))
    ∧ ((MBTilesSource._get_metadata_value src field_name default s).2.log
        = if (s.cache.lookup field_name).isSome then s.log
          else s.log ++ [Query.metadataValue field_name])
    ∧ (MBTilesSource._get_zoom { src with db := db2 } max_zoom
        (MBTilesSource._get_zoom src max_zoom s).2
      = ((MBTilesSource._get_zoom src max_zoom s).1,
         (MBTilesSource._get_zoom src max_zoom s).2)) := by
  refine ⟨?_, ?_, ?_⟩
  · cases h : s.cache.lookup field_name with
    | some v => simp [MBTilesSource._get_metadata_value, h]
    | none =>
      simp only [MBTilesSource._get_metadata_value, h]
      simp [lookup_dictInsert_self]
  · cases h : s.cache.lookup field_name with
    | some v => simp [MBTilesSource._get_metadata_value, h]
    | none => simp [MBTilesSource._get_metadata_value, h]
  · cases h : s.cache.lookup (if max_zoom then "maxzoom" else "minzoom") with
    | some v => simp [MBTilesSource._get_zoom, h]
    | none =>
      simp only [MBTilesSource._get_zoom, h, MBTilesSource._get_metadata_value,
        MBTilesSource._get_zoom_from_tiles_table]
      simp [lookup_dictInsert_self]

/-- C5 (amended): `name()` never fails on any backend (it is total); the
remote and directory backends resolve, in order, the explicit metadata
name, else the metadata identifier, else a value derived from the location
(URL host name and directory base name respectively, where Python
truthiness makes None and the empty string fall through); the archive
backend always returns the base name of its file path and never consults
the metadata. -/
theorem C5_name_resolution :
    (∀ src : ServerSource,
        (pyFalsyStr src.json.name = false → ServerSource.name src = src.json.name.getD "")
      ∧ (pyFalsyStr src.json.name = true → pyFalsyStr src.json.id = false →
          ServerSource.name src = src.json.id.getD "")
      ∧ (pyFalsyStr src.json.name = true → pyFalsyStr src.json.id = true →
          ServerSource.name src = urlsplitNetloc src.url))
    ∧ (∀ (json : TileJSON) (path : String),
        (pyFalsyStr json.name = false → DirectorySource.name0 json path = json.name.getD "")
      ∧ (pyFalsyStr json.name = true → pyFalsyStr json.id = false →
          DirectorySource.name0 json path = json.id.getD "")
      ∧ (pyFalsyStr json.name = true → pyFalsyStr json.id = true →
          DirectorySource.name0 json path = basenamePy path))
    ∧ (∀ src : MBTilesSource, MBTilesSource.name src = splitextRoot (basenamePy src.path)) := by
  refine ⟨fun src => ⟨?_, ?_, ?_⟩, fun json path => ⟨?_, ?_, ?_⟩, fun src => rfl⟩
  · intro h1
    simp [ServerSource.name, h1]
  · intro h1 h2
    simp [ServerSource.name, h1, h2]
  · intro h1 h2
    simp [ServerSource.name, h1, h2]
  · intro h1
    simp [DirectorySource.name0, h1]
  · intro h1 h2
    simp [DirectorySource.name0, h1, h2]
  · intro h1 h2
    simp [DirectorySource.name0, h1, h2]

/-- C5 witness: concrete resolutions on all three backends — a remote
source without name and id falls back to the URL host name, a directory
source with an explicit metadata name returns it, and an archive source
returns the base name of its path. -/
theorem C5_name_resolution_witness :
    (ServerSource.name ⟨"https://tiles.example.com/x.json", ⟨none, none, [], "xyz"⟩⟩
        = urlsplitNetloc "https://tiles.example.com/x.json"
      ∧ urlsplitNetloc "https://tiles.example.com/x.json" = "tiles.example.com")
    ∧ DirectorySource.name0 ⟨some "OSM Bright", none, [], "xyz"⟩ "/srv/tiles" = "OSM Bright"
    ∧ MBTilesSource.name ⟨"/maps/bar.mbtiles", ⟨[], []⟩⟩
        = splitextRoot (basenamePy "/maps/bar.mbtiles") := by
  refine ⟨⟨?_, by decide⟩, ?_, ?_⟩
  · exact (C5_name_resolution.1 ⟨"https://tiles.example.com/x.json", ⟨none, none, [], "xyz"⟩⟩).2.2
      (by decide) (by decide)
  · exact (C5_name_resolution.2.1 ⟨some "OSM Bright", none, [], "xyz"⟩ "/srv/tiles").1 (by decide)
  · exact C5_name_resolution.2.2 ⟨"/maps/bar.mbtiles", ⟨[], []⟩⟩

/-- C5 counterexample: an archive at path /maps/bar.mbtiles whose metadata
table explicitly binds name to Foo; the claimed resolution order would
return the metadata name Foo, but `name()` returns the path base name
bar. -/
theorem C5_name_counterexample :
    metadataLookup ⟨[], [("name", "Foo")]⟩ "name" = some "Foo"
    ∧ MBTilesSource.name ⟨"/maps/bar.mbtiles", ⟨[], [("name", "Foo")]⟩⟩ = "bar"
    ∧ ("bar" : String) ≠ "Foo" := by
  refine ⟨rfl, by decide, by decide⟩

/-- C6: `bounds_tile(zoom)` on the archive backend resolves through three
tiers in order — the declared metadata bounds when present and convertible,
else the MIN/MAX column and row actually stored at that zoom, else the
whole-world extent converted at that zoom. -/
theorem C6_bounds_tile_tiers (src : MBTilesSource)
    (get_tile_bounds : Nat → List String → String → String → Option Bounds)
    (zoom : Nat) (s : MBState) :
    (∀ extent b, (MBTilesSource.bounds src s).1 = some extent →
        get_tile_bounds zoom extent
          (MBTilesSource.scheme src (MBTilesSource.bounds src s).2).1.toStr "4326" = some b →
        (MBTilesSource.bounds_tile src get_tile_bounds zoom s).1 = some b)
    ∧ (∀ b,
        (match (MBTilesSource.bounds src s).1 with
          | some extent => get_tile_bounds zoom extent
              (MBTilesSource.scheme src (MBTilesSource.bounds src s).2).1.toStr "4326"
          | none => none) = none →
        (MBTilesSource._get_bounds_from_data src zoom
            (MBTilesSource.scheme src (MBTilesSource.bounds src s).2).2).1 = some b →
        (MBTilesSource.bounds_tile src get_tile_bounds zoom s).1 = some b)
    ∧ ((match (MBTilesSource.bounds src s).1 with
          | some extent => get_tile_bounds zoom extent
              (MBTilesSource.scheme src (MBTilesSource.bounds src s).2).1.toStr "4326"
          | none => none) = none →
        (MBTilesSource._get_bounds_from_data src zoom
            (MBTilesSource.scheme src (MBTilesSource.bounds src s).2).2).1 = none →
        (MBTilesSource.bounds_tile src get_tile_bounds zoom s).1
          = get_tile_bounds zoom WORLD_BOUNDS
              (MBTilesSource.scheme src (MBTilesSource.bounds src s).2).1.toStr "4326") := by
  refine ⟨?_, ?_, ?_⟩
  · intro extent b h1 h2
    simp only [MBTilesSource.bounds_tile, h1, h2]
  · intro b h1 h2
    simp only [MBTilesSource.bounds_tile, h1, h2]
  · intro h1 h2
    simp only [MBTilesSource.bounds_tile, h1, h2]

/-- C6 witness: the spec scenario — an archive with tiles stored at
(col 3, row 5) and (col 7, row 9) at zoom 4 and no metadata bounds:
`bounds_tile(4)` returns grid bounds exactly x_min 3, x_max 7, y_min 5,
y_max 9 through the data scan tier. -/
theorem C6_bounds_tile_witness :
    (MBTilesSource.bounds_tile ⟨"/maps/w.mbtiles", ⟨[⟨4, 3, 5, []⟩, ⟨4, 7, 9, []⟩], []⟩⟩
        (fun _ _ _ _ => none) 4 ⟨[], []⟩).1
      = some ⟨4, 3, 7, 5, 9, "tms"⟩ :=
  (C6_bounds_tile_tiers ⟨"/maps/w.mbtiles", ⟨[⟨4, 3, 5, []⟩, ⟨4, 7, 9, []⟩], []⟩⟩
      (fun _ _ _ _ => none) 4 ⟨[], []⟩).2.1 ⟨4, 3, 7, 5, 9, "tms"⟩ (by decide) (by decide)

theorem countLimit_cons_limit (l : List Event) :
    countLimit (Event.tileLimitReached :: l) = countLimit l + 1 := by
  simp [countLimit, List.filter]

theorem countLimit_cons_other {e : Event} (he : e ≠ Event.tileLimitReached) (l : List Event) :
    countLimit (e :: l) = countLimit l := by
  have hb : (e == Event.tileLimitReached) = false := beq_eq_false_iff_ne.mpr he
  simp [countLimit, List.filter, hb]

theorem countLimit_limit_match (maxt : Option Nat) (p : Nat → Prop) [DecidablePred p] :
    countLimit (match maxt with
      | some m => if p m then [Event.tileLimitReached] else []
      | none => ([] : List Event))
      = (match maxt with
        | some m => if p m then 1 else 0
        | none => 0) := by
  cases maxt with
  | none => rfl
  | some m =>
    by_cases hc : p m
    · simp [hc, countLimit]
    · simp [hc, countLimit]

theorem mb_load_countLimit (src : MBTilesSource) (zoom_level : Nat) (tiles : List Coord)
    (maxt : Option Nat) (flag : Nat → Bool) (s : MBState) :
    countLimit (MBTilesSource.load_tiles src zoom_level tiles maxt flag s).2.2
      = (match maxt with
        | some m => if m < MBTilesSource.count_at_zoom src.db zoom_level then 1 else 0
        | none => 0) := by
  simp only [MBTilesSource.load_tiles]
  by_cases hre : (MBTilesSource.selectRows src.db zoom_level
      (MBTilesSource.center_tiles maxt tiles (flag 0))).isEmpty = true
  · simp only [hre, if_true]
    exact countLimit_limit_match maxt _
  · have hre2 : (MBTilesSource.selectRows src.db zoom_level
        (MBTilesSource.center_tiles maxt tiles (flag 0))).isEmpty = false := by simpa using hre
    simp only [hre2, Bool.false_eq_true, if_false]
    rw [countLimit_append,
      countLimit_cons_other (by simp),
      countLimit_progress (mbFetchLoop_events src flag maxt _ 0 [] _),
      countLimit_limit_match maxt _]
    omega

theorem mb_load_length_le (src : MBTilesSource) (zoom_level : Nat) (tiles : List Coord)
    (m : Nat) (flag : Nat → Bool) (s : MBState) (hm : 0 < m) :
    (MBTilesSource.load_tiles src zoom_level tiles (some m) flag s).1.length ≤ m := by
  simp only [MBTilesSource.load_tiles]
  by_cases hre : (MBTilesSource.selectRows src.db zoom_level
      (MBTilesSource.center_tiles (some m) tiles (flag 0))).isEmpty = true
  · simp [hre]
  · have hre2 : (MBTilesSource.selectRows src.db zoom_level
        (MBTilesSource.center_tiles (some m) tiles (flag 0))).isEmpty = false := by simpa using hre
    simp only [hre2, Bool.false_eq_true, if_false]
    exact mbFetchLoop_le_cap src flag m hm _ 0 [] _ (by simp)

/-- C2 (amended): with a positive cap smaller than the request, the remote
and directory backends return at most `max_tiles` results and emit the
tile-limit event exactly once; the archive backend also returns at most
`max_tiles` results, but emits the event exactly once iff `max_tiles` is
smaller than the number of tiles stored at that zoom level in the archive —
independently of the requested set — and not at all otherwise. -/
theorem C2_tile_cap :
    (∀ (src : ServerSource) (web : String → Option Bytes) (zoom_level : Nat)
        (tiles : List Coord) (m : Nat) (flag : Nat → Bool),
        src.json.tiles ≠ [] → 0 < m → m < tiles.length →
        ∃ out, ServerSource.load_tiles src web zoom_level tiles (some m) flag = Except.ok out
          ∧ out.result.length ≤ m ∧ countLimit out.events = 1)
    ∧ (∀ (src : MBTilesSource) (zoom_level : Nat) (tiles : List Coord) (m : Nat)
        (flag : Nat → Bool) (s : MBState), 0 < m →
        (MBTilesSource.load_tiles src zoom_level tiles (some m) flag s).1.length ≤ m
        ∧ countLimit (MBTilesSource.load_tiles src zoom_level tiles (some m) flag s).2.2
            = if m < MBTilesSource.count_at_zoom src.db zoom_level then 1 else 0)
    ∧ (∀ (src : DirectorySource) (fs : String → Option Bytes) (zoom_level : Nat)
        (tiles : List Coord) (m : Nat) (flag : Nat → Bool), m < tiles.length →
        ∃ out, DirectorySource.load_tiles src fs zoom_level tiles (some m) flag = Except.ok out
          ∧ out.result.length ≤ m ∧ countLimit out.events = 1) := by
  refine ⟨?_, ?_, ?_⟩
  · intro src web zoom_level tiles m flag h1 hm hlen
    cases htl : src.json.tiles with
    | nil => exact absurd htl h1
    | cons base rest =>
      have hcond : m ≠ 0 ∧ m < tiles.length := ⟨by omega, hlen⟩
      simp only [ServerSource.load_tiles, htl, if_pos hcond]
      refine ⟨_, rfl, ?_, ?_⟩
      · rw [List.length_map]
        refine le_trans (load_tiles_async_length web flag _ 0) ?_
        rw [List.length_map, List.enum_length, get_tiles_from_center_length]
        omega
      · rw [countLimit_append, countLimit_append,
          countLimit_cons_limit, countLimit_cons_other (by simp),
          countLimit_cons_other (by simp),
          countLimit_progress (load_tiles_async_events web flag _ 0)]
        rfl
  · intro src zoom_level tiles m flag s hm
    refine ⟨mb_load_length_le src zoom_level tiles m flag s hm, ?_⟩
    exact mb_load_countLimit src zoom_level tiles (some m) flag s
  · intro src fs zoom_level tiles m flag hlen
    simp only [DirectorySource.load_tiles, if_pos hlen]
    refine ⟨_, rfl, ?_, ?_⟩
    · refine le_trans (dirFetchLoop_length src fs zoom_level _ _ 0) ?_
      rw [get_tiles_from_center_length]
      omega
    · rw [countLimit_append, countLimit_cons_limit,
        countLimit_cons_other (by simp),
        countLimit_progress (dirFetchLoop_events src fs zoom_level _ _ 0)]
      rfl

/-- C2 witness: the amended cap behaviour evaluated at concrete inputs on
all three backends, obtained by applying the C2 theorem there. -/
theorem C2_tile_cap_witness :
    (∃ out, ServerSource.load_tiles ⟨"https://h/x", ⟨none, none, ["t/{z}/{x}/{y}"], "xyz"⟩⟩
        (fun _ => some [0]) 1 [(0, 0), (1, 1)] (some 1) neverCancel = Except.ok out
      ∧ out.result.length ≤ 1 ∧ countLimit out.events = 1)
    ∧ ((MBTilesSource.load_tiles
          ⟨"/a/x.mbtiles", ⟨[⟨0, 0, 0, []⟩, ⟨0, 1, 0, []⟩, ⟨0, 2, 0, []⟩], []⟩⟩
          0 [(0, 0), (1, 1)] (some 1) neverCancel ⟨[], []⟩).1.length ≤ 1
      ∧ countLimit (MBTilesSource.load_tiles
          ⟨"/a/x.mbtiles", ⟨[⟨0, 0, 0, []⟩, ⟨0, 1, 0, []⟩, ⟨0, 2, 0, []⟩], []⟩⟩
          0 [(0, 0), (1, 1)] (some 1) neverCancel ⟨[], []⟩).2.2
        = if 1 < MBTilesSource.count_at_zoom
            ⟨[⟨0, 0, 0, []⟩, ⟨0, 1, 0, []⟩, ⟨0, 2, 0, []⟩], []⟩ 0 then 1 else 0)
    ∧ (∃ out, DirectorySource.load_tiles ⟨"/d", ⟨none, none, [], "xyz"⟩⟩ (fun _ => none)
        0 [(0, 0), (1, 1)] (some 1) neverCancel = Except.ok out
      ∧ out.result.length ≤ 1 ∧ countLimit out.events = 1) :=
  ⟨C2_tile_cap.1 _ _ 1 _ 1 neverCancel (by decide) (by decide) (by decide),
   C2_tile_cap.2.1 _ 0 _ 1 neverCancel ⟨[], []⟩ (by decide),
   C2_tile_cap.2.2 _ _ 0 _ 1 neverCancel (by decide)⟩

/-- C2 counterexample: an archive storing a single tile at zoom 0, with two
tiles requested under max_tiles=1 — the request exceeds the cap, yet the
tile-limit event fires zero times (not once), because the archive backend
drives the event off the stored-tile COUNT (1 < 1 fails), not off the
requested set. -/
theorem C2_tile_cap_counterexample :
    1 < ([(0, 0), (1, 0)] : List Coord).length
    ∧ countLimit (MBTilesSource.load_tiles ⟨"/a/one.mbtiles", ⟨[⟨0, 0, 0, []⟩], []⟩⟩
        0 [(0, 0), (1, 0)] (some 1) neverCancel ⟨[], []⟩).2.2 = 0 := by
  exact ⟨by decide, by decide⟩

/-- C4 (amended): when `max_tiles` is set but the candidate set does not
exceed it, the remote backend behaves exactly as with no cap at all (no
reduction, no event), and the directory backend uses the candidate set
unchanged with no tile-limit event; the archive backend, however, invokes
the center-outward selector whenever `max_tiles` is set, and signals the
tile-limit event exactly when `max_tiles` is below the number of tiles
stored at that zoom level — even when the candidate set is within the
cap. -/
theorem C4_reduction_policy :
    (∀ (src : ServerSource) (web : String → Option Bytes) (zoom_level : Nat)
        (tiles : List Coord) (m : Nat) (flag : Nat → Bool), tiles.length ≤ m →
        ServerSource.load_tiles src web zoom_level tiles (some m) flag
          = ServerSource.load_tiles src web zoom_level tiles none flag)
    ∧ (∀ (src : DirectorySource) (fs : String → Option Bytes) (zoom_level : Nat)
        (tiles : List Coord) (m : Nat) (flag : Nat → Bool), tiles.length ≤ m →
        ∃ out, DirectorySource.load_tiles src fs zoom_level tiles (some m) flag = Except.ok out
          ∧ countLimit out.events = 0
          ∧ out.events = Event.maxProgressList tiles
              :: (dirFetchLoop src fs zoom_level (DirectorySource.tile_path src) tiles 0).2
          ∧ out.result = (dirFetchLoop src fs zoom_level (DirectorySource.tile_path src) tiles 0).1)
    ∧ (∀ (src : MBTilesSource) (zoom_level : Nat) (tiles : List Coord) (m : Nat)
        (flag : Nat → Bool) (s : MBState),
        MBTilesSource.center_tiles (some m) tiles (flag 0)
            = get_tiles_from_center m tiles (flag 0)
        ∧ countLimit (MBTilesSource.load_tiles src zoom_level tiles (some m) flag s).2.2
            = if m < MBTilesSource.count_at_zoom src.db zoom_level then 1 else 0) := by
  refine ⟨?_, ?_, ?_⟩
  · intro src web zoom_level tiles m flag hle
    cases htl : src.json.tiles with
    | nil => simp [ServerSource.load_tiles, htl]
    | cons base rest =>
      have hcond : ¬ (m ≠ 0 ∧ m < tiles.length) := by omega
      simp [ServerSource.load_tiles, htl, hcond]
  · intro src fs zoom_level tiles m flag hle
    have hnot : ¬ (m < tiles.length) := by omega
    simp only [DirectorySource.load_tiles, if_neg hnot]
    refine ⟨_, rfl, ?_, rfl, rfl⟩
    simp only [List.nil_append]
    rw [countLimit_cons_other (by simp),
      countLimit_progress (dirFetchLoop_events src fs zoom_level _ _ 0)]
  · intro src zoom_level tiles m flag s
    exact ⟨rfl, mb_load_countLimit src zoom_level tiles (some m) flag s⟩

/-- C4 witness: with one requested tile and cap 1, the remote backend runs
exactly as uncapped, while an archive storing two tiles at that zoom still
fires the tile-limit event once. -/
theorem C4_reduction_policy_witness :
    (ServerSource.load_tiles ⟨"https://h/x", ⟨none, none, ["t"], "xyz"⟩⟩ (fun _ => none)
        0 [(0, 0)] (some 1) neverCancel
      = ServerSource.load_tiles ⟨"https://h/x", ⟨none, none, ["t"], "xyz"⟩⟩ (fun _ => none)
        0 [(0, 0)] none neverCancel)
    ∧ countLimit (MBTilesSource.load_tiles
        ⟨"/a/w.mbtiles", ⟨[⟨0, 0, 0, []⟩, ⟨0, 1, 0, []⟩], []⟩⟩
        0 [(0, 0)] (some 1) neverCancel ⟨[], []⟩).2.2 = 1 := by
  constructor
  · exact C4_reduction_policy.1 _ _ 0 _ 1 neverCancel (by decide)
  · have h := (C4_reduction_policy.2.2
      ⟨"/a/w.mbtiles", ⟨[⟨0, 0, 0, []⟩, ⟨0, 1, 0, []⟩], []⟩⟩
      0 [(0, 0)] 1 neverCancel ⟨[], []⟩).2
    rw [h]
    decide

/-- C4 counterexample: an archive storing two tiles at zoom 0, with a
single tile requested under max_tiles=1 — the candidate set does not exceed
the cap, yet the tile-limit event is signalled, contradicting the claim
that no event fires when the candidate set is within the cap. -/
theorem C4_reduction_counterexample :
    ([(0, 0)] : List Coord).length ≤ 1
    ∧ countLimit (MBTilesSource.load_tiles
        ⟨"/a/two.mbtiles", ⟨[⟨0, 0, 0, []⟩, ⟨0, 1, 0, []⟩], []⟩⟩
        0 [(0, 0)] (some 1) neverCancel ⟨[], []⟩).2.2 = 1 := ⟨by decide, by decide⟩

theorem filter_progress_nil (p : Event → Bool) (hp : ∀ n, p (Event.progress n) = false)
    {l : List Event} (h : ∀ e ∈ l, ∃ n, e = Event.progress n) : l.filter p = [] := by
  induction l with
  | nil => rfl
  | cons e rest ih =>
    obtain ⟨n, hn⟩ := h e (List.mem_cons_self e rest)
    subst hn
    simp only [List.filter, hp n]
    exact ih (fun x hx => h x (List.mem_cons_of_mem _ hx))

theorem filter_limit_match (p : Event → Bool) (hp : p Event.tileLimitReached = false)
    (maxt : Option Nat) (q : Nat → Prop) [DecidablePred q] :
    (match maxt with
      | some m => if q m then [Event.tileLimitReached] else []
      | none => ([] : List Event)).filter p = [] := by
  cases maxt with
  | none => rfl
  | some m =>
    by_cases hq : q m
    · simp [hq, hp]
    · simp [hq]

/-- C7 (amended): before per-item fetching the remote backend emits the
total URL count on the max-progress signal immediately followed by an
initial status message; the archive backend emits no status message ever,
and reports a max-progress count (the row count) only when the SELECT
returned rows; the directory backend emits no status message and no integer
max-progress value at all — it passes the (possibly reduced) tile list
itself to the signal. -/
theorem C7_progress_reporting :
    (∀ (src : ServerSource) (web : String → Option Bytes) (zoom_level : Nat)
        (tiles : List Coord) (maxt : Option Nat) (flag : Nat → Bool) (out : LoadOut),
        ServerSource.load_tiles src web zoom_level tiles maxt flag = Except.ok out →
        ∃ fes, (out.events
              = Event.maxProgress (ServerSource.request_tiles maxt tiles (flag 0)).length
                :: Event.message ("Getting "
                  ++ natRepr (ServerSource.request_tiles maxt tiles (flag 0)).length
                  ++ " tiles from source...") :: fes
            ∨ out.events
              = Event.tileLimitReached
                :: Event.maxProgress (ServerSource.request_tiles maxt tiles (flag 0)).length
                :: Event.message ("Getting "
                  ++ natRepr (ServerSource.request_tiles maxt tiles (flag 0)).length
                  ++ " tiles from source...") :: fes)
          ∧ ∀ e ∈ fes, ∃ p, e = Event.progress p)
    ∧ (∀ (src : MBTilesSource) (zoom_level : Nat) (tiles : List Coord) (maxt : Option Nat)
        (flag : Nat → Bool) (s : MBState),
        (MBTilesSource.load_tiles src zoom_level tiles maxt flag s).2.2.filter isMessageEv = []
        ∧ (MBTilesSource.load_tiles src zoom_level tiles maxt flag s).2.2.filter isMaxProgressEv
            = (if (MBTilesSource.selectRows src.db zoom_level
                  (MBTilesSource.center_tiles maxt tiles (flag 0))).isEmpty then []
               else [Event.maxProgress (MBTilesSource.selectRows src.db zoom_level
                  (MBTilesSource.center_tiles maxt tiles (flag 0))).length]))
    ∧ (∀ (src : DirectorySource) (fs : String → Option Bytes) (zoom_level : Nat)
        (tiles : List Coord) (m : Nat) (flag : Nat → Bool) (out : LoadOut),
        DirectorySource.load_tiles src fs zoom_level tiles (some m) flag = Except.ok out →
        out.events.filter isMessageEv = []
        ∧ out.events.filter isMaxProgressEv = []
        ∧ out.events.filter isMaxProgressListEv
            = [Event.maxProgressList (if m < tiles.length
                then get_tiles_from_center m tiles (flag 0) else tiles)]) := by
  refine ⟨?_, ?_, ?_⟩
  · intro src web zoom_level tiles maxt flag out hok
    cases htl : src.json.tiles with
    | nil =>
      simp only [ServerSource.load_tiles, htl] at hok
      exact absurd hok (by simp)
    | cons base rest =>
      simp only [ServerSource.load_tiles, htl] at hok
      injection hok with hout
      subst hout
      simp only [List.length_map, List.enum_length]
      cases maxt with
      | none =>
        exact ⟨_, Or.inl rfl, fun e he => load_tiles_async_events web flag _ 0 e he⟩
      | some m =>
        by_cases hc : m ≠ 0 ∧ m < tiles.length
        · simp only [ServerSource.request_tiles, if_pos hc]
          exact ⟨_, Or.inr rfl, fun e he => load_tiles_async_events web flag _ 0 e he⟩
        · simp only [ServerSource.request_tiles, if_neg hc]
          exact ⟨_, Or.inl rfl, fun e he => load_tiles_async_events web flag _ 0 e he⟩
  · intro src zoom_level tiles maxt flag s
    simp only [MBTilesSource.load_tiles]
    by_cases hre : (MBTilesSource.selectRows src.db zoom_level
        (MBTilesSource.center_tiles maxt tiles (flag 0))).isEmpty = true
    · simp only [hre, if_true]
      exact ⟨filter_limit_match isMessageEv rfl maxt _, filter_limit_match isMaxProgressEv rfl maxt _⟩
    · have hre2 : (MBTilesSource.selectRows src.db zoom_level
          (MBTilesSource.center_tiles maxt tiles (flag 0))).isEmpty = false := by simpa using hre
      simp only [hre2, Bool.false_eq_true, if_false]
      constructor
      · rw [List.filter_append, filter_limit_match isMessageEv rfl maxt _]
        simp only [List.nil_append, List.filter]
        exact filter_progress_nil isMessageEv (fun _ => rfl)
          (mbFetchLoop_events src flag maxt _ 0 [] _)
      · rw [List.filter_append, filter_limit_match isMaxProgressEv rfl maxt _]
        simp only [List.nil_append, List.filter]
        rw [filter_progress_nil isMaxProgressEv (fun _ => rfl)
          (mbFetchLoop_events src flag maxt _ 0 [] _)]
        rfl
  · intro src fs zoom_level tiles m flag out hok
    simp only [DirectorySource.load_tiles] at hok
    injection hok with hout
    subst hout
    by_cases hc : m < tiles.length
    · simp only [if_pos hc]
      refine ⟨?_, ?_, ?_⟩
      · simp only [List.cons_append, List.nil_append, List.filter]
        exact filter_progress_nil isMessageEv (fun _ => rfl)
          (dirFetchLoop_events src fs zoom_level _ _ 0)
      · simp only [List.cons_append, List.nil_append, List.filter]
        exact filter_progress_nil isMaxProgressEv (fun _ => rfl)
          (dirFetchLoop_events src fs zoom_level _ _ 0)
      · simp only [List.cons_append, List.nil_append, List.filter]
        rw [filter_progress_nil isMaxProgressListEv (fun _ => rfl)
          (dirFetchLoop_events src fs zoom_level _ _ 0)]
        rfl
    · simp only [if_neg hc]
      refine ⟨?_, ?_, ?_⟩
      · simp only [List.nil_append, List.filter]
        exact filter_progress_nil isMessageEv (fun _ => rfl)
          (dirFetchLoop_events src fs zoom_level _ _ 0)
      · simp only [List.nil_append, List.filter]
        exact filter_progress_nil isMaxProgressEv (fun _ => rfl)
          (dirFetchLoop_events src fs zoom_level _ _ 0)
      · simp only [List.nil_append, List.filter]
        rw [filter_progress_nil isMaxProgressListEv (fun _ => rfl)
          (dirFetchLoop_events src fs zoom_level _ _ 0)]
        rfl

/-- C7 witness: concrete loads — the remote backend reports the URL count
(one requested tile gives a max-progress payload of exactly 1) followed by
the status message, an archive fetching one row reports the row count but
no message, and a directory load reports neither a message nor an integer
count, only the tile list signal. -/
theorem C7_progress_reporting_witness :
    (∃ out fes, ServerSource.load_tiles ⟨"u", ⟨none, none, ["b"], "xyz"⟩⟩ (fun _ => none)
          0 [(0, 0)] none neverCancel = Except.ok out
        ∧ (out.events
              = Event.maxProgress (ServerSource.request_tiles none [(0, 0)] (neverCancel 0)).length
                :: Event.message ("Getting "
                  ++ natRepr (ServerSource.request_tiles none [(0, 0)] (neverCancel 0)).length
                  ++ " tiles from source...") :: fes
            ∨ out.events
              = Event.tileLimitReached
                :: Event.maxProgress (ServerSource.request_tiles none [(0, 0)] (neverCancel 0)).length
                :: Event.message ("Getting "
                  ++ natRepr (ServerSource.request_tiles none [(0, 0)] (neverCancel 0)).length
                  ++ " tiles from source...") :: fes)
        ∧ (∀ e ∈ fes, ∃ p, e = Event.progress p)
        ∧ (ServerSource.request_tiles none [(0, 0)] (neverCancel 0)).length = 1)
    ∧ ((MBTilesSource.load_tiles ⟨"/a/x.mbtiles", ⟨[⟨0, 0, 0, []⟩], []⟩⟩ 0 [(0, 0)] none
        neverCancel ⟨[], []⟩).2.2.filter isMessageEv = []
      ∧ (MBTilesSource.load_tiles ⟨"/a/x.mbtiles", ⟨[⟨0, 0, 0, []⟩], []⟩⟩ 0 [(0, 0)] none
        neverCancel ⟨[], []⟩).2.2.filter isMaxProgressEv = [Event.maxProgress 1])
    ∧ (∃ out, DirectorySource.load_tiles ⟨"/d", ⟨none, none, [], "xyz"⟩⟩ (fun _ => none)
          0 [(0, 0)] (some 1) neverCancel = Except.ok out
        ∧ out.events.filter isMessageEv = []
        ∧ out.events.filter isMaxProgressEv = []
        ∧ out.events.filter isMaxProgressListEv = [Event.maxProgressList [(0, 0)]]) := by
  refine ⟨?_, ?_, ?_⟩
  · have h := C7_progress_reporting.1 ⟨"u", ⟨none, none, ["b"], "xyz"⟩⟩ (fun _ => none)
      0 [(0, 0)] none neverCancel
      ⟨[], [Event.maxProgress 1, Event.message "Getting 1 tiles from source...",
        Event.progress 1]⟩ rfl
    obtain ⟨fes, hdisj, hprog⟩ := h
    exact ⟨⟨[], [Event.maxProgress 1, Event.message "Getting 1 tiles from source...",
      Event.progress 1]⟩, fes, rfl, hdisj, hprog, by decide⟩
  · have h := C7_progress_reporting.2.1 ⟨"/a/x.mbtiles", ⟨[⟨0, 0, 0, []⟩], []⟩⟩ 0 [(0, 0)]
      none neverCancel ⟨[], []⟩
    refine ⟨h.1, ?_⟩
    rw [h.2]
    decide
  · have h := C7_progress_reporting.2.2 ⟨"/d", ⟨none, none, [], "xyz"⟩⟩ (fun _ => none)
      0 [(0, 0)] 1 neverCancel ⟨[], [Event.maxProgressList [(0, 0)], Event.progress 0]⟩ rfl
    refine ⟨⟨[], [Event.maxProgressList [(0, 0)], Event.progress 0]⟩, rfl, h.1, h.2.1, ?_⟩
    rw [h.2.2]
    decide

/-- C7 counterexample: a concrete archive load that does fetch a tile
(result length 1) yet emits no status message event at all, refuting the
claim that every backend reports the item count together with an initial
status message. -/
theorem C7_progress_counterexample :
    (MBTilesSource.load_tiles ⟨"/a/y.mbtiles", ⟨[⟨0, 0, 0, []⟩], []⟩⟩ 0 [(0, 0)] none
        neverCancel ⟨[], []⟩).1.length = 1
    ∧ (MBTilesSource.load_tiles ⟨"/a/y.mbtiles", ⟨[⟨0, 0, 0, []⟩], []⟩⟩ 0 [(0, 0)] none
        neverCancel ⟨[], []⟩).2.2.filter isMessageEv = [] := ⟨by decide, by decide⟩

theorem center_tiles_flag (maxt : Option Nat) (tiles : List Coord) (b b' : Bool) :
    MBTilesSource.center_tiles maxt tiles b = MBTilesSource.center_tiles maxt tiles b' := by
  cases maxt <;> rfl

/-- C3 (amended): on the remote and archive backends the fetch checks the
cancellation flag between items, so a cancellation arriving before check
`k` leaves at most `k` tiles, and the returned list is exactly an initial
segment of what the uncancelled run retrieves — a normal partial result,
no exception.  The directory backend honours cancellation only inside the
center-outward reduction: when no reduction happens its per-file loop never
reads the flag, and the call result is identical for every cancellation
schedule. -/
theorem C3_cancellation_stops :
    (∀ (src : ServerSource) (web : String → Option Bytes) (zoom_level : Nat)
        (tiles : List Coord) (maxt : Option Nat) (k : Nat), src.json.tiles ≠ [] →
        ∃ out outFull,
          ServerSource.load_tiles src web zoom_level tiles maxt (cancelFrom k) = Except.ok out
          ∧ ServerSource.load_tiles src web zoom_level tiles maxt neverCancel = Except.ok outFull
          ∧ out.result.length ≤ k ∧ isFrontOf out.result outFull.result)
    ∧ (∀ (src : MBTilesSource) (zoom_level : Nat) (tiles : List Coord) (maxt : Option Nat)
        (k : Nat) (s : MBState),
        (MBTilesSource.load_tiles src zoom_level tiles maxt (cancelFrom k) s).1.length ≤ k
        ∧ isFrontOf (MBTilesSource.load_tiles src zoom_level tiles maxt (cancelFrom k) s).1
            (MBTilesSource.load_tiles src zoom_level tiles maxt neverCancel s).1)
    ∧ (∀ (src : DirectorySource) (fs : String → Option Bytes) (zoom_level : Nat)
        (tiles : List Coord) (m : Nat) (flag flag2 : Nat → Bool), tiles.length ≤ m →
        DirectorySource.load_tiles src fs zoom_level tiles (some m) flag
          = DirectorySource.load_tiles src fs zoom_level tiles (some m) flag2) := by
  refine ⟨?_, ?_, ?_⟩
  · intro src web zoom_level tiles maxt k h1
    cases htl : src.json.tiles with
    | nil => exact absurd htl h1
    | cons base rest =>
      simp only [ServerSource.load_tiles, htl]
      refine ⟨_, _, rfl, rfl, ?_, ?_⟩
      · rw [List.length_map, load_tiles_async_cancelFrom]
        refine le_trans (load_tiles_async_length web neverCancel _ 0) ?_
        exact le_trans (List.length_take_le _ _) (by omega)
      · rw [load_tiles_async_cancelFrom]
        exact isFrontOf_map _ (load_tiles_async_take_front web _ (k - 0) 0)
  · intro src zoom_level tiles maxt k s
    simp only [MBTilesSource.load_tiles]
    rw [center_tiles_flag maxt tiles (cancelFrom k 0) (neverCancel 0)]
    by_cases hre : (MBTilesSource.selectRows src.db zoom_level
        (MBTilesSource.center_tiles maxt tiles (neverCancel 0))).isEmpty = true
    · simp only [hre, if_true]
      exact ⟨by simp, isFrontOf_refl _⟩
    · have hre2 : (MBTilesSource.selectRows src.db zoom_level
          (MBTilesSource.center_tiles maxt tiles (neverCancel 0))).isEmpty = false := by
        simpa using hre
      simp only [hre2, Bool.false_eq_true, if_false]
      constructor
      · rw [mbFetchLoop_cancelFrom]
        refine le_trans (mbFetchLoop_length src neverCancel maxt _ 0 [] _) ?_
        simp only [List.length_nil, Nat.zero_add]
        exact le_trans (List.length_take_le _ _) (by omega)
      · rw [mbFetchLoop_cancelFrom]
        exact mbFetchLoop_take_front src maxt _ (k - 0) 0 [] _
  · intro src fs zoom_level tiles m flag flag2 hle
    have hnot : ¬ (m < tiles.length) := by omega
    simp only [DirectorySource.load_tiles, if_neg hnot]

/-- C3 witness: cancellation before the second check on the remote and
archive backends leaves at most one tile and an initial segment of the full
run; on the directory backend (within the cap) the cancelled and
uncancelled runs coincide. -/
theorem C3_cancellation_stops_witness :
    (∃ out outFull,
        ServerSource.load_tiles ⟨"u", ⟨none, none, ["b"], "xyz"⟩⟩ (fun _ => some [1])
          0 [(0, 0), (1, 0)] none (cancelFrom 1) = Except.ok out
        ∧ ServerSource.load_tiles ⟨"u", ⟨none, none, ["b"], "xyz"⟩⟩ (fun _ => some [1])
          0 [(0, 0), (1, 0)] none neverCancel = Except.ok outFull
        ∧ out.result.length ≤ 1 ∧ isFrontOf out.result outFull.result)
    ∧ ((MBTilesSource.load_tiles ⟨"/a/x.mbtiles", ⟨[⟨0, 0, 0, []⟩, ⟨0, 1, 0, []⟩], []⟩⟩
          0 [(0, 0), (1, 0)] none (cancelFrom 1) ⟨[], []⟩).1.length ≤ 1
      ∧ isFrontOf (MBTilesSource.load_tiles ⟨"/a/x.mbtiles", ⟨[⟨0, 0, 0, []⟩, ⟨0, 1, 0, []⟩], []⟩⟩
            0 [(0, 0), (1, 0)] none (cancelFrom 1) ⟨[], []⟩).1
          (MBTilesSource.load_tiles ⟨"/a/x.mbtiles", ⟨[⟨0, 0, 0, []⟩, ⟨0, 1, 0, []⟩], []⟩⟩
            0 [(0, 0), (1, 0)] none neverCancel ⟨[], []⟩).1)
    ∧ DirectorySource.load_tiles ⟨"/d", ⟨none, none, [], "xyz"⟩⟩ (fun _ => some [7])
        0 [(0, 0)] (some 3) (cancelFrom 0)
      = DirectorySource.load_tiles ⟨"/d", ⟨none, none, [], "xyz"⟩⟩ (fun _ => some [7])
        0 [(0, 0)] (some 3) neverCancel :=
  ⟨C3_cancellation_stops.1 _ _ 0 _ none 1 (by decide),
   C3_cancellation_stops.2.1 _ 0 _ none 1 ⟨[], []⟩,
   C3_cancellation_stops.2.2 _ _ 0 _ 3 (cancelFrom 0) neverCancel (by decide)⟩

/-- C3 counterexample: directory backend with cancellation arriving before
the very first check (cancelFrom 0) — the claim predicts no tile is
fetched, but both requested tile files are read and returned. -/
theorem C3_cancellation_counterexample :
    (DirectorySource.load_tiles ⟨"/d", ⟨none, none, [], "xyz"⟩⟩
        (fun p => if p == "/d/0/0/0.pbf" || p == "/d/0/1/0.pbf" then some [7] else none)
        0 [(0, 0), (1, 0)] (some 5) (cancelFrom 0)).toOption.map (fun o => o.result.length)
      = some 2 := by decide
